import Mathlib

/-!
Verification of the track-level orchestration core of the TrackToTrip
library (`tracktotrip/track.py`): construction/sorting, housekeeping
queries, the trip transformation pipeline, the spatial-join similarity
algorithm, and merge-and-fit.

Segments, points, the pairwise segment-similarity scorer, the R-tree
spatial index and the numpy helpers are external collaborators of the
core; they are modelled here through the capability contract the core
consumes (spec §2, §6): a segment exposes a start time, a bounding box
`(minLat, minLon, maxLat, maxLon)` and an ordered list of point
timestamps; the per-segment mutating operations are injected as
opaque functions (`SegOps`); the pairwise scorer is an opaque function
returning a score and an opaque diff payload.  Times and coordinates
are modelled as `ℤ`/`ℚ`.  Fallible operations (Python exceptions such
as `IndexError`) return `Option`.
-/

/-- External segment contract (spec §2, §6): start time (`getStartTime`),
bounding box fields (`getBounds` = `(minLat, minLon, maxLat, maxLon)`) and
the ordered point timestamps (`pointAt(i).time`). -/
structure Seg where
  start : ℤ
  minLat : ℚ
  minLon : ℚ
  maxLat : ℚ
  maxLon : ℚ
  points : List ℤ
deriving DecidableEq

/-- `Track` data model (`track.py` attributes `name`, `segments`,
`preprocessed`). -/
structure Track where
  name : String
  segments : List Seg
  preprocessed : Bool
deriving DecidableEq

/-- Ordering of segments by their start time, the sort key
`lambda s: s.getStartTime()` used by `Track.__init__`. -/
def segLE (a b : Seg) : Prop := a.start ≤ b.start

instance : DecidableRel segLE := fun a b => inferInstanceAs (Decidable (a.start ≤ b.start))

instance : IsTotal Seg segLE := ⟨fun a b => Int.le_total a.start b.start⟩

instance : IsTrans Seg segLE := ⟨fun _ _ _ h1 h2 => le_trans h1 h2⟩

/-- `Track.__init__` (track.py:24-39): stores the name, stores the segments
sorted ascending by start time (Python `sorted` is a stable sort, modelled
by the stable `List.insertionSort`), sets `preprocessed = False`. -/
def Track.init (name : String) (segments : List Seg) : Track :=
  { name := name
    segments := List.insertionSort segLE segments
    preprocessed := false }

/-- `Track.segmentAt` (track.py:41-49): `self.segments[i]`.  Python sequence
indexing: `0 ≤ i < len` addresses from the front, `-len ≤ i < 0` addresses
from the end, anything else raises `IndexError` (modelled as `none`). -/
def Track.segmentAt (t : Track) (i : ℤ) : Option Seg :=
  if 0 ≤ i then t.segments.get? i.toNat
  else if -(t.segments.length : ℤ) ≤ i then t.segments.get? (i + t.segments.length).toNat
  else none

/-- `Track.getBounds` (track.py:292-303): fold over the segments starting
from the sentinel `(+inf, +inf, -inf, -inf)`, taking the element-wise
min of the min coordinates and max of the max coordinates.  `+inf` is
modelled as `⊤ : WithTop ℚ` and `-inf` as `⊥ : WithBot ℚ`. -/
def Track.getBounds (t : Track) : WithTop ℚ × WithTop ℚ × WithBot ℚ × WithBot ℚ :=
  t.segments.foldl
    (fun acc s =>
      (min (s.minLat : WithTop ℚ) acc.1,
       min (s.minLon : WithTop ℚ) acc.2.1,
       max (s.maxLat : WithBot ℚ) acc.2.2.1,
       max (s.maxLon : WithBot ℚ) acc.2.2.2))
    (⊤, ⊤, ⊥, ⊥)

/-- Injected per-segment operations (the external Segment capability
contract, spec §6), one field per operation the track-level code
delegates to.  `segmentOp` covers `segment.segment(eps, min_time)`
composed with the `Segment(a)` re-wrapping of each resulting point run
(track.py:108-110); `strftime` is the external time formatter used by
`generateName`. -/
structure SegOps where
  removeNoiseOp : ℚ → Seg → Seg
  smoothOp : String → ℚ → Seg → Seg
  segmentOp : ℚ → ℚ → Seg → List Seg
  simplifyOp : Bool → ℚ → Seg → Seg
  computeMetricsOp : Seg → Seg
  strftime : String → ℤ → String

/-- `Track.removeNoise` (track.py:75-85): applies the per-segment noise
removal to every segment, in place, and returns the track. -/
def Track.removeNoise (ops : SegOps) (var : ℚ) (t : Track) : Track :=
  { t with segments := t.segments.map (ops.removeNoiseOp var) }

/-- `Track.smooth` (track.py:87-95). -/
def Track.smooth (ops : SegOps) (strategy : String) (noise : ℚ) (t : Track) : Track :=
  { t with segments := t.segments.map (ops.smoothOp strategy noise) }

/-- `Track.segment` (track.py:97-112): each segment is re-partitioned into
a list of sub-segments and the track's segment list is replaced by their
concatenation in parent order. -/
def Track.segment (ops : SegOps) (eps min_time : ℚ) (t : Track) : Track :=
  { t with segments := t.segments.flatMap (ops.segmentOp eps min_time) }

/-- `Track.simplify` (track.py:114-128). -/
def Track.simplify (ops : SegOps) (topology_only : Bool) (dist_threshold : ℚ) (t : Track) : Track :=
  { t with segments := t.segments.map (ops.simplifyOp topology_only dist_threshold) }

/-- `Track.compute_metrics` (track.py:354-357). -/
def Track.compute_metrics (ops : SegOps) (t : Track) : Track :=
  { t with segments := t.segments.map ops.computeMetricsOp }

/-- `Track.generateName` (track.py:60-73): if there are segments, the
formatted timestamp of the first point of the first segment plus the
`".gpx"` extension (`pointAt(0)` on a segment with no points raises,
modelled `none`); otherwise the literal `"EmptyTrack"`. -/
def Track.generateName (ops : SegOps) (t : Track) (f : String) : Option String :=
  match t.segments with
  | [] => some "EmptyTrack"
  | s :: _ => (s.points.get? 0).map (fun p => ops.strftime f p ++ ".gpx")

/-- `Track.toTrip` (track.py:151-202), transcribed statement by statement:
name resolution (`if len(name) != 0: name = self.name else: name =
self.generateName(file_format)`), then — the `self.removeNoise(noise_var)`
call is commented out in the source — `smooth`, `compute_metrics`,
`segment`, `compute_metrics`, `simplify` (with the default
`topology_only=False`), `compute_metrics`, and finally the name
assignment.  `noise_var` and `simplify_max_time` are accepted but unused,
as in the source. -/
def Track.toTrip (ops : SegOps) (t : Track) (name : String)
    (noise_var : ℚ) (smooth_strategy : String)
    (smooth_noise seg_eps seg_min_time simplify_dist_threshold simplify_max_time : ℚ)
    (file_format : String) : Option Track :=
  match (if name.length ≠ 0 then some t.name else Track.generateName ops t file_format) with
  | none => none
  | some nm =>
    let t1 := Track.smooth ops smooth_strategy smooth_noise t
    let t2 := Track.compute_metrics ops t1
    let t3 := Track.segment ops seg_eps seg_min_time t2
    let t4 := Track.compute_metrics ops t3
    let t5 := Track.simplify ops false simplify_dist_threshold t4
    let t6 := Track.compute_metrics ops t5
    some { t6 with name := nm }

/-- A correspondence entry of `Track.similarity`: either the empty marker
`[]` appended for a query segment with no spatial-index hits
(track.py:349) or a `(result.id, i, diff)` triple (track.py:339). -/
inductive Corr (D : Type) where
  | empty : Corr D
  | triple (selfSegIdx : ℕ) (queryIdx : ℕ) (diff : D) : Corr D
deriving DecidableEq

/-- Python builtin `max` over a non-empty list (the `max(res_siml)` call,
track.py:345); the `[]` case is arbitrary and never reached. -/
def listMax : List ℚ → ℚ
  | [] => 0
  | [x] => x
  | x :: y :: ys => max x (listMax (y :: ys))

/-- `numpy.argmax` (track.py:346): index of the first occurrence of the
maximum value; the `[]` case is arbitrary and never reached. -/
def npArgmax : List ℚ → ℕ
  | [] => 0
  | [_] => 0
  | x :: y :: ys => if listMax (y :: ys) ≤ x then 0 else npArgmax (y :: ys) + 1

/-- `numpy.mean` (track.py:352): arithmetic mean; the mean of an empty
array is undefined (numpy yields `NaN`), modelled as `none`. -/
def npMean (l : List ℚ) : Option ℚ :=
  match l with
  | [] => none
  | _ => some (l.sum / l.length)

/-- The insertion loop of `Track.similarity` (track.py:323-327): the
R-tree receives `(n, bounds, obj=segment)` for the segments of `self`
with consecutive ids `n = 0, 1, 2, ...`. -/
def rtreeEntries (n : ℕ) : List Seg → List (ℕ × Seg)
  | [] => []
  | s :: ss => (n, s) :: rtreeEntries (n + 1) ss

/-- Bounding-box intersection of two segments' `(minLat, minLon, maxLat,
maxLon)` boxes — the R-tree's intersection semantics (closed boxes), from
the spatial-index contract of spec §2. -/
def boxIntersect (a b : Seg) : Bool :=
  decide (a.minLat ≤ b.maxLat) && decide (b.minLat ≤ a.maxLat) &&
    decide (a.minLon ≤ b.maxLon) && decide (b.minLon ≤ a.maxLon)

/-- `idx.intersection(segment.getBounds(), objects=True)` (track.py:332):
all inserted entries whose bounding box intersects the query segment's
box.  Deterministic model of the external R-tree: entries are enumerated
in insertion order (spec §4.3c/§9 requires a deterministic index). -/
def idxIntersection (entries : List (ℕ × Seg)) (q : Seg) : List (ℕ × Seg) :=
  entries.filter (fun e => boxIntersect e.2 q)

/-- The body of the per-query-segment loop of `Track.similarity`
(track.py:331-349) for query segment `q` at position `i`: query the
index, score every candidate with `segment_similarity` (the external
scorer `simFn`), and produce the recorded `(score, correspondence)`
pair — `(max(res_siml), res_diff[np.argmax(res_siml)])` when the
candidate set is non-empty, `(0, [])` otherwise.  (`getD`'s default is
never reached: `npArgmax` of a non-empty list is in range.) -/
def querySegment {D : Type} (simFn : Seg → Seg → ℚ × D)
    (entries : List (ℕ × Seg)) (i : ℕ) (q : Seg) : ℚ × Corr D :=
  let query := idxIntersection entries q
  let res_siml := query.map (fun r => (simFn q r.2).1)
  let res_diff := query.map (fun r => Corr.triple r.1 i (simFn q r.2).2)
  if 0 < res_siml.length then
    (listMax res_siml, res_diff.getD (npArgmax res_siml) Corr.empty)
  else
    (0, Corr.empty)

/-- The `for i, segment in enumerate(track.segments)` loop of
`Track.similarity` (track.py:331-349), accumulating one
`(score, correspondence)` pair per query segment, in order. -/
def simLoop {D : Type} (simFn : Seg → Seg → ℚ × D)
    (entries : List (ℕ × Seg)) (i : ℕ) : List Seg → List (ℚ × Corr D)
  | [] => []
  | q :: qs => querySegment simFn entries i q :: simLoop simFn entries (i + 1) qs

/-- The `final_siml` list of `Track.similarity`: the per-query scores, in
query order. -/
def similarityScores {D : Type} (simFn : Seg → Seg → ℚ × D) (self other : Track) : List ℚ :=
  (simLoop simFn (rtreeEntries 0 self.segments) 0 other.segments).map Prod.fst

/-- The `final_diff` list of `Track.similarity`: the correspondence
entries, one per query segment, in query order. -/
def similarityCorrs {D : Type} (simFn : Seg → Seg → ℚ × D) (self other : Track) : List (Corr D) :=
  (simLoop simFn (rtreeEntries 0 self.segments) 0 other.segments).map Prod.snd

/-- `Track.similarity` (track.py:309-352): build the spatial index over
`self.segments`, run the per-query loop over `track.segments`, and return
`(np.mean(final_siml), final_diff)`. -/
def Track.similarity {D : Type} (simFn : Seg → Seg → ℚ × D) (self other : Track) :
    Option ℚ × List (Corr D) :=
  (npMean (similarityScores simFn self other), similarityCorrs simFn self other)

/-- `Track.merge_and_fit` (track.py:257-263): for each
`(selfSegIndex, trackSegIndex, diffs)` triple, fetch the two segments
(an out-of-range index raises `IndexError`, modelled `none`) and merge
the other track's segment into this track's segment in place (`mf` is
the external per-segment `merge_and_fit`); `diffs` and `threshold` are
accepted but never consulted.  Returns the (mutated) track itself. -/
def Track.merge_and_fit {D : Type} (mf : Seg → Seg → Seg) :
    Track → Track → List (ℕ × ℕ × D) → ℚ → Option Track
  | self, _, [], _ => some self
  | self, track, (selfSegIndex, trackSegIndex, _) :: rest, threshold =>
    match self.segments.get? selfSegIndex, track.segments.get? trackSegIndex with
    | some selfS, some trackS =>
      Track.merge_and_fit mf
        { self with segments := self.segments.set selfSegIndex (mf selfS trackS) }
        track rest threshold
    | _, _ => none

/-! ### Helper lemmas: `listMax` and `npArgmax` -/

theorem le_listMax {a : ℚ} : ∀ {xs : List ℚ}, a ∈ xs → a ≤ listMax xs
  | [x], h => by
    rcases List.mem_singleton.mp h with rfl
    exact le_of_eq rfl
  | x :: y :: ys, h => by
    rcases List.mem_cons.mp h with rfl | h'
    · exact le_max_left _ _
    · exact le_trans (le_listMax h') (le_max_right _ _)

theorem npArgmax_lt_length : ∀ {xs : List ℚ}, xs ≠ [] → npArgmax xs < xs.length
  | [], h => absurd rfl h
  | [x], _ => Nat.zero_lt_one
  | x :: y :: ys, _ => by
    unfold npArgmax
    split
    · simp
    · have := @npArgmax_lt_length (y :: ys) (by simp)
      simpa [Nat.succ_lt_succ_iff] using this

theorem getD_npArgmax : ∀ {xs : List ℚ}, xs ≠ [] → xs.getD (npArgmax xs) 0 = listMax xs
  | [], h => absurd rfl h
  | [x], _ => rfl
  | x :: y :: ys, _ => by
    unfold npArgmax
    split
    · rename_i hle
      simp [listMax, max_eq_left hle]
    · rename_i hlt
      have hx : x ≤ listMax (y :: ys) := le_of_lt (lt_of_not_le hlt)
      have ih := @getD_npArgmax (y :: ys) (by simp)
      rw [List.getD_cons_succ, ih]
      show listMax (y :: ys) = max x (listMax (y :: ys))
      exact (max_eq_right hx).symm

theorem getD_lt_of_lt_npArgmax : ∀ {xs : List ℚ} {j : ℕ},
    j < npArgmax xs → xs.getD j 0 < listMax xs
  | [], j, h => by simp [npArgmax] at h
  | [x], j, h => by simp [npArgmax] at h
  | x :: y :: ys, j, h => by
    unfold npArgmax at h
    split at h
    · exact absurd h (Nat.not_lt_zero j)
    · rename_i hlt
      have hx : x < listMax (y :: ys) := lt_of_not_le hlt
      match j with
      | 0 =>
        simpa [listMax, List.getD_cons_zero] using lt_of_lt_of_le hx (le_max_right x _)
      | j + 1 =>
        have hj : j < npArgmax (y :: ys) := Nat.lt_of_succ_lt_succ h
        have := getD_lt_of_lt_npArgmax hj
        calc (x :: y :: ys).getD (j + 1) 0 = (y :: ys).getD j 0 := List.getD_cons_succ
          _ < listMax (y :: ys) := this
          _ ≤ listMax (x :: y :: ys) := le_max_right _ _

/-! ### Helper lemmas: stability of the construction-time sort -/

theorem filter_orderedInsert (k : ℤ) (a : Seg) : ∀ l : List Seg,
    (List.orderedInsert segLE a l).filter (fun s => decide (s.start = k)) =
      if a.start = k then a :: l.filter (fun s => decide (s.start = k))
      else l.filter (fun s => decide (s.start = k))
  | [] => by
    simp only [List.orderedInsert_nil, List.filter]
    by_cases h : a.start = k <;> simp [h]
  | x :: xs => by
    simp only [List.orderedInsert]
    by_cases hle : segLE a x
    · simp only [if_pos hle, List.filter]
      by_cases ha : a.start = k <;> simp [ha]
    · have hxa : x.start < a.start := lt_of_not_le hle
      simp only [if_neg hle, List.filter_cons, filter_orderedInsert k a xs]
      by_cases ha : a.start = k
      · have hx : ¬ x.start = k := by omega
        simp [ha, hx]
      · simp [ha]

theorem filter_insertionSort (k : ℤ) : ∀ l : List Seg,
    (List.insertionSort segLE l).filter (fun s => decide (s.start = k)) =
      l.filter (fun s => decide (s.start = k))
  | [] => rfl
  | a :: l => by
    simp only [List.insertionSort, filter_orderedInsert, filter_insertionSort k l,
      List.filter_cons]
    by_cases ha : a.start = k <;> simp [ha]

/-! ### Helper lemmas: the per-query loop of `similarity` -/

theorem querySegment_of_no_candidates {D : Type} (simFn : Seg → Seg → ℚ × D)
    (entries : List (ℕ × Seg)) (i : ℕ) (q : Seg)
    (h : idxIntersection entries q = []) :
    querySegment simFn entries i q = (0, Corr.empty) := by
  simp [querySegment, h]

theorem querySegment_of_candidates {D : Type} (simFn : Seg → Seg → ℚ × D)
    (entries : List (ℕ × Seg)) (i : ℕ) (q : Seg)
    (h : idxIntersection entries q ≠ []) :
    ∃ (k : ℕ) (e : ℕ × Seg),
      (idxIntersection entries q).get? k = some e ∧
      querySegment simFn entries i q =
        (listMax ((idxIntersection entries q).map (fun r => (simFn q r.2).1)),
         Corr.triple e.1 i (simFn q e.2).2) ∧
      ((idxIntersection entries q).map (fun r => (simFn q r.2).1)).get? k =
        some (listMax ((idxIntersection entries q).map (fun r => (simFn q r.2).1))) ∧
      ∀ j < k,
        ((idxIntersection entries q).map (fun r => (simFn q r.2).1)).getD j 0 <
          listMax ((idxIntersection entries q).map (fun r => (simFn q r.2).1)) := by
  set cands := idxIntersection entries q with hcands
  set scores := cands.map (fun r => (simFn q r.2).1) with hscores
  have hsne : scores ≠ [] := by
    simp [hscores, List.map_eq_nil_iff]
    exact h
  have hk : npArgmax scores < scores.length := npArgmax_lt_length hsne
  have hkc : npArgmax scores < cands.length := by
    simpa [hscores] using hk
  have he : cands.get? (npArgmax scores) = some (cands.get ⟨npArgmax scores, hkc⟩) :=
    List.get?_eq_get hkc
  refine ⟨npArgmax scores, cands.get ⟨npArgmax scores, hkc⟩, he, ?_, ?_, ?_⟩
  · have hlen : 0 < scores.length := Nat.pos_of_ne_zero (by
      intro h0
      exact hsne (List.length_eq_zero.mp h0))
    have hdiff :
        (cands.map (fun r => Corr.triple r.1 i (simFn q r.2).2)).getD (npArgmax scores) Corr.empty
          = Corr.triple (cands.get ⟨npArgmax scores, hkc⟩).1 i
              (simFn q (cands.get ⟨npArgmax scores, hkc⟩).2).2 := by
      rw [List.getD_eq_getElem?_getD, List.getElem?_map]
      rw [List.get?_eq_getElem?] at he
      rw [he]
      rfl
    show (if 0 < scores.length then
        (listMax scores,
          (cands.map (fun r => Corr.triple r.1 i (simFn q r.2).2)).getD (npArgmax scores) Corr.empty)
      else (0, Corr.empty)) = _
    rw [if_pos hlen, hdiff]
  · have : scores.get? (npArgmax scores) = some (scores.get ⟨npArgmax scores, hk⟩) :=
      List.get?_eq_get hk
    rw [this, List.get_eq_getElem, ← List.getD_eq_getElem scores 0 hk, getD_npArgmax hsne]
  · intro j hj
    exact getD_lt_of_lt_npArgmax hj

theorem simLoop_length {D : Type} (simFn : Seg → Seg → ℚ × D)
    (entries : List (ℕ × Seg)) : ∀ (qs : List Seg) (i : ℕ),
    (simLoop simFn entries i qs).length = qs.length
  | [], _ => rfl
  | _ :: qs, i => by
    simp [simLoop, simLoop_length simFn entries qs (i + 1)]

theorem simLoop_get? {D : Type} (simFn : Seg → Seg → ℚ × D)
    (entries : List (ℕ × Seg)) : ∀ (qs : List Seg) (i j : ℕ),
    (simLoop simFn entries i qs).get? j =
      (qs.get? j).map (fun q => querySegment simFn entries (i + j) q)
  | [], i, j => by simp [simLoop]
  | q :: qs, i, 0 => by simp [simLoop]
  | q :: qs, i, j + 1 => by
    have := simLoop_get? simFn entries qs (i + 1) j
    simp only [simLoop, List.get?_cons_succ, this]
    have harith : i + 1 + j = i + (j + 1) := by omega
    rw [harith]

/-! ### Helper lemma: the `getBounds` accumulator fold -/

theorem getBounds_foldl : ∀ (l : List Seg) (a b : WithTop ℚ) (c d : WithBot ℚ),
    l.foldl
      (fun acc s =>
        (min (s.minLat : WithTop ℚ) acc.1,
         min (s.minLon : WithTop ℚ) acc.2.1,
         max (s.maxLat : WithBot ℚ) acc.2.2.1,
         max (s.maxLon : WithBot ℚ) acc.2.2.2))
      (a, b, c, d) =
      (min a ((l.map (fun s => (s.minLat : WithTop ℚ))).foldr min ⊤),
       min b ((l.map (fun s => (s.minLon : WithTop ℚ))).foldr min ⊤),
       max c ((l.map (fun s => (s.maxLat : WithBot ℚ))).foldr max ⊥),
       max d ((l.map (fun s => (s.maxLon : WithBot ℚ))).foldr max ⊥))
  | [], a, b, c, d => by simp
  | s :: l, a, b, c, d => by
    simp only [List.foldl_cons, List.map_cons, List.foldr_cons]
    rw [getBounds_foldl l]
    refine Prod.ext ?_ (Prod.ext ?_ (Prod.ext ?_ ?_)) <;>
      simp [min_assoc, min_left_comm, min_comm, max_assoc, max_left_comm, max_comm]

/-! ### C6 — construction sorts segments stably by start time -/

/-- C6: for every name and every input segment list, the constructed
track stores the name, and its `segments` field is the input list sorted
ascending by start time: it is sorted with respect to `segLE`, it is a
permutation of the input, and the sort is stable — for every start time
`k`, the segments whose start time is `k` appear in exactly their
relative input order. -/
theorem track_init_sorted_stable (name : String) (segs : List Seg) :
    (Track.init name segs).name = name ∧
    List.Sorted segLE (Track.init name segs).segments ∧
    (Track.init name segs).segments.Perm segs ∧
    ∀ k : ℤ, (Track.init name segs).segments.filter (fun s => decide (s.start = k)) =
      segs.filter (fun s => decide (s.start = k)) :=
  ⟨rfl, List.sorted_insertionSort segLE segs, List.perm_insertionSort segLE segs,
    fun k => filter_insertionSort k segs⟩

/-! ### C7 — union bounding box with inverted sentinel for empty tracks -/

/-- C7: `getBounds` returns the 4-tuple whose first two components are
the minima of the segments' `minLat`/`minLon` values (starting from the
`+inf` sentinel) and whose last two components are the maxima of the
segments' `maxLat`/`maxLon` values (starting from the `-inf` sentinel);
on a track with zero segments it returns the sentinel
`(+inf, +inf, -inf, -inf)` rather than failing. -/
theorem track_getBounds_spec (t : Track) :
    Track.getBounds t =
      ((t.segments.map (fun s => (s.minLat : WithTop ℚ))).foldr min ⊤,
       (t.segments.map (fun s => (s.minLon : WithTop ℚ))).foldr min ⊤,
       (t.segments.map (fun s => (s.maxLat : WithBot ℚ))).foldr max ⊥,
       (t.segments.map (fun s => (s.maxLon : WithBot ℚ))).foldr max ⊥) ∧
    Track.getBounds (Track.init "" []) = (⊤, ⊤, ⊥, ⊥) := by
  constructor
  · unfold Track.getBounds
    rw [getBounds_foldl]
    simp
  · rfl

/-! ### C1 — one correspondence entry per query segment, empty marker on no hits -/

/-- C1: `similarity self other` returns one correspondence entry per
segment of `other`, in the same order (entry `i` is computed from query
segment `i`); and for every query segment whose spatial-index candidate
set is empty, the per-query score recorded in `final_siml` is `0` and
the correspondence entry is the empty marker (no triple). -/
theorem similarity_shape {D : Type} (simFn : Seg → Seg → ℚ × D) (self other : Track) :
    (Track.similarity simFn self other).2.length = other.segments.length ∧
    (∀ (i : ℕ) (q : Seg), other.segments.get? i = some q →
      (Track.similarity simFn self other).2.get? i =
        some (querySegment simFn (rtreeEntries 0 self.segments) i q).2) ∧
    (∀ (i : ℕ) (q : Seg), other.segments.get? i = some q →
      idxIntersection (rtreeEntries 0 self.segments) q = [] →
      (similarityScores simFn self other).get? i = some 0 ∧
      (Track.similarity simFn self other).2.get? i = some Corr.empty) := by
  refine ⟨?_, ?_, ?_⟩
  · show (similarityCorrs simFn self other).length = other.segments.length
    simp [similarityCorrs, simLoop_length]
  · intro i q hq
    show (similarityCorrs simFn self other).get? i = _
    simp only [similarityCorrs, List.get?_map, simLoop_get?, hq, Nat.zero_add]
    rfl
  · intro i q hq hempty
    constructor
    · simp only [similarityScores, List.get?_map, simLoop_get?, hq, Nat.zero_add]
      simp [querySegment_of_no_candidates simFn _ i q hempty]
    · show (similarityCorrs simFn self other).get? i = _
      simp only [similarityCorrs, List.get?_map, simLoop_get?, hq, Nat.zero_add]
      simp [querySegment_of_no_candidates simFn _ i q hempty]

/-! ### C2 — non-empty candidate set: first maximum wins, triple recorded -/

/-- C2: for every query segment `q` at position `i` of the other track
whose candidate set (entries of the index over `self.segments` whose
bounding box intersects `q`'s) is non-empty, `similarity` records as
per-query score the maximum pairwise score over the candidates, and as
correspondence entry the triple `(selfSegmentIndex, i, diff)` of the
candidate at position `k` in intersection-enumeration order, where `k`
attains the maximum score and every earlier candidate scores strictly
less (ties broken by the first candidate in enumeration order). -/
theorem similarity_best_match {D : Type} (simFn : Seg → Seg → ℚ × D) (self other : Track)
    (i : ℕ) (q : Seg) (hq : other.segments.get? i = some q)
    (hne : idxIntersection (rtreeEntries 0 self.segments) q ≠ []) :
    ∃ (k : ℕ) (e : ℕ × Seg),
      (idxIntersection (rtreeEntries 0 self.segments) q).get? k = some e ∧
      (Track.similarity simFn self other).2.get? i =
        some (Corr.triple e.1 i (simFn q e.2).2) ∧
      (similarityScores simFn self other).get? i =
        some (listMax ((idxIntersection (rtreeEntries 0 self.segments) q).map
          (fun r => (simFn q r.2).1))) ∧
      ((idxIntersection (rtreeEntries 0 self.segments) q).map
          (fun r => (simFn q r.2).1)).get? k =
        some (listMax ((idxIntersection (rtreeEntries 0 self.segments) q).map
          (fun r => (simFn q r.2).1))) ∧
      ∀ j < k,
        ((idxIntersection (rtreeEntries 0 self.segments) q).map
            (fun r => (simFn q r.2).1)).getD j 0 <
          listMax ((idxIntersection (rtreeEntries 0 self.segments) q).map
            (fun r => (simFn q r.2).1)) := by
  obtain ⟨k, e, he, hquery, hscore, hfirst⟩ :=
    querySegment_of_candidates simFn (rtreeEntries 0 self.segments) i q hne
  refine ⟨k, e, he, ?_, ?_, hscore, hfirst⟩
  · show (similarityCorrs simFn self other).get? i = _
    simp only [similarityCorrs, List.get?_map, simLoop_get?, hq, Nat.zero_add]
    simp [hquery]
  · simp only [similarityScores, List.get?_map, simLoop_get?, hq, Nat.zero_add]
    simp [hquery]

/-! ### C3 — empty query track: the overall score is the undefined mean, not 0 -/

/-- C3 (amended): when the query track has zero segments, `similarity`
returns the undefined empty mean (`np.mean([])` is `NaN`, modelled
`none`) — not the value `0` — together with the empty correspondence
list. -/
theorem similarity_empty_query {D : Type} (simFn : Seg → Seg → ℚ × D) (self other : Track)
    (h : other.segments = []) :
    Track.similarity simFn self other = (none, []) := by
  simp [Track.similarity, similarityScores, similarityCorrs, h, simLoop, npMean]

/-! ### Helper lemma: one step of `merge_and_fit` -/

theorem merge_and_fit_cons {D : Type} (mf : Seg → Seg → Seg) (self other : Track)
    (si ti : ℕ) (d : D) (rest : List (ℕ × ℕ × D)) (th : ℚ) :
    Track.merge_and_fit mf self other ((si, ti, d) :: rest) th =
      match self.segments.get? si, other.segments.get? ti with
      | some selfS, some trackS =>
        Track.merge_and_fit mf
          { self with segments := self.segments.set si (mf selfS trackS) } other rest th
      | _, _ => none := rfl

/-! ### C8 — merge_and_fit frame: untouched indices stay untouched -/

/-- C8: when `merge_and_fit` succeeds, every segment of `self` whose
index does not appear as a `selfSegIndex` in any triple of the
correspondence list is unchanged (the name, the `preprocessed` flag and
the number of segments are also unchanged), and the segments of the
other track at indices not named by a `trackSegIndex` are never
consulted: replacing the other track by any track that agrees at the
named indices yields the same result. -/
theorem merge_and_fit_frame {D : Type} (mf : Seg → Seg → Seg) :
    ∀ (ff : List (ℕ × ℕ × D)) (self other t' : Track) (th : ℚ),
      Track.merge_and_fit mf self other ff th = some t' →
      t'.name = self.name ∧ t'.preprocessed = self.preprocessed ∧
      t'.segments.length = self.segments.length ∧
      (∀ i : ℕ, (∀ e ∈ ff, e.1 ≠ i) → t'.segments.get? i = self.segments.get? i) ∧
      ∀ other2 : Track,
        (∀ e ∈ ff, other2.segments.get? e.2.1 = other.segments.get? e.2.1) →
        Track.merge_and_fit mf self other2 ff th = some t'
  | [], self, other, t', th, h => by
    simp only [Track.merge_and_fit, Option.some.injEq] at h
    subst h
    exact ⟨rfl, rfl, rfl, fun i _ => rfl, fun o2 _ => rfl⟩
  | (si, ti, d) :: rest, self, other, t', th, h => by
    rw [merge_and_fit_cons] at h
    rcases hs : self.segments.get? si with _ | selfS
    · rw [hs] at h
      rcases ht : other.segments.get? ti with _ | trackS <;> rw [ht] at h <;>
        exact Option.noConfusion h
    · rw [hs] at h
      rcases ht : other.segments.get? ti with _ | trackS
      · rw [ht] at h
        exact Option.noConfusion h
      · rw [ht] at h
        obtain ⟨hname, hpre, hlen, hframe, hni⟩ :=
          merge_and_fit_frame mf rest
            { self with segments := self.segments.set si (mf selfS trackS) } other t' th h
        refine ⟨hname, hpre, hlen.trans (by simp), ?_, ?_⟩
        · intro i hi
          have hsi : si ≠ i := hi (si, ti, d) (List.mem_cons_self _ _)
          have hrest : ∀ e ∈ rest, e.1 ≠ i := fun e he => hi e (List.mem_cons_of_mem _ he)
          have := hframe i hrest
          rw [this]
          exact List.get?_set_ne (mf selfS trackS) self.segments hsi
        · intro o2 ho2
          have hhead : o2.segments.get? ti = some trackS :=
            (ho2 (si, ti, d) (List.mem_cons_self _ _)).trans ht
          rw [merge_and_fit_cons, hs, hhead]
          exact hni o2 (fun e he => ho2 e (List.mem_cons_of_mem _ he))

/-! ### C10 — merge_and_fit depends only on the index pairs -/

/-- C10: the result of `merge_and_fit` depends only on the
`(selfSegIndex, trackSegIndex)` pairs in the correspondence list: for
any two lists with the same index pairs — even with diff payloads of
different types — and any two threshold values, `merge_and_fit`
performs exactly the same merges; the payloads and the threshold are
never consulted. -/
theorem merge_and_fit_index_pairs {D1 D2 : Type} (mf : Seg → Seg → Seg) :
    ∀ (ff1 : List (ℕ × ℕ × D1)) (ff2 : List (ℕ × ℕ × D2)) (self other : Track) (th1 th2 : ℚ),
      ff1.map (fun e => (e.1, e.2.1)) = ff2.map (fun e => (e.1, e.2.1)) →
      Track.merge_and_fit mf self other ff1 th1 = Track.merge_and_fit mf self other ff2 th2
  | [], ff2, self, other, th1, th2, h => by
    have h2 : ff2 = [] := by
      cases ff2 with
      | nil => rfl
      | cons e l => simp at h
    subst h2
    rfl
  | (si, ti, d) :: rest1, ff2, self, other, th1, th2, h => by
    cases ff2 with
    | nil => simp at h
    | cons e2 rest2 =>
      rcases e2 with ⟨s2, t2, d2⟩
      simp only [List.map_cons, List.cons.injEq, Prod.mk.injEq] at h
      obtain ⟨⟨hs2, ht2⟩, hrest⟩ := h
      subst hs2
      subst ht2
      rw [merge_and_fit_cons, merge_and_fit_cons]
      rcases hs : self.segments.get? si with _ | selfS <;>
        rcases ht : other.segments.get? ti with _ | trackS
      · rfl
      · rfl
      · rfl
      · exact merge_and_fit_index_pairs mf rest1 rest2
          { self with segments := self.segments.set si (mf selfS trackS) } other th1 th2 hrest

/-! ### C9 — segmentAt and Python's negative indexing -/

/-- C9 (amended): `segmentAt i` returns the `i`-th segment when
`0 ≤ i < n`; for `-n ≤ i < 0` it returns the `(n + i)`-th segment
(Python's negative indexing addresses from the end); and it fails with
an out-of-range error exactly when `i < -n` or `i ≥ n`. -/
theorem track_segmentAt_spec (t : Track) (i : ℤ) :
    (0 ≤ i → Track.segmentAt t i = t.segments.get? i.toNat) ∧
    (i < 0 → -(t.segments.length : ℤ) ≤ i →
      Track.segmentAt t i = t.segments.get? (i + t.segments.length).toNat) ∧
    ((i < -(t.segments.length : ℤ) ∨ (t.segments.length : ℤ) ≤ i) →
      Track.segmentAt t i = none) ∧
    ((Track.segmentAt t i).isSome ↔
      -(t.segments.length : ℤ) ≤ i ∧ i < (t.segments.length : ℤ)) := by
  refine ⟨?_, ?_, ?_, ?_⟩
  · intro h0
    simp [Track.segmentAt, h0]
  · intro hneg hge
    have h0 : ¬ (0 ≤ i) := not_le.mpr hneg
    simp [Track.segmentAt, h0, hge]
  · rintro (hlt | hge)
    · have h0 : ¬ (0 ≤ i) := by omega
      have h1 : ¬ (-(t.segments.length : ℤ) ≤ i) := by omega
      simp [Track.segmentAt, h0, h1]
    · have h0 : 0 ≤ i := by omega
      simp only [Track.segmentAt, if_pos h0]
      exact List.get?_eq_none.mpr (by omega)
  · by_cases h0 : 0 ≤ i
    · simp only [Track.segmentAt, if_pos h0]
      rw [List.get?_eq_getElem?]
      simp [Option.isSome_iff_ne_none]
      omega
    · by_cases h1 : -(t.segments.length : ℤ) ≤ i
      · simp only [Track.segmentAt, if_neg h0, if_pos h1]
        rw [List.get?_eq_getElem?]
        simp [Option.isSome_iff_ne_none]
        omega
      · simp only [Track.segmentAt, if_neg h0, if_neg h1]
        simp
        omega

/-! ### C5 — the canonical trip pipeline -/

/-- C5: `toTrip` applies exactly the stage sequence smooth,
compute_metrics, segment, compute_metrics, simplify, compute_metrics, in
that order, to the track's segments (and then assigns the resolved name
and returns the resulting track itself); it never invokes noise removal
— the result is unchanged under replacing the injected noise-removal
operation and the `noise_var` argument by arbitrary other values — while
`removeNoise` remains available as an independently callable stage. -/
theorem toTrip_stage_sequence (ops : SegOps) (rn : ℚ → Seg → Seg) (t u : Track)
    (nm : String) (nv nv2 sn se sm sd smax v : ℚ) (st ff : String) :
    Track.toTrip ops t nm nv st sn se sm sd smax ff =
      (if nm.length ≠ 0 then some t.name else Track.generateName ops t ff).map
        (fun n =>
          { Track.compute_metrics ops
              (Track.simplify ops false sd
                (Track.compute_metrics ops
                  (Track.segment ops se sm
                    (Track.compute_metrics ops
                      (Track.smooth ops st sn t))))) with name := n }) ∧
    Track.toTrip { ops with removeNoiseOp := rn } t nm nv2 st sn se sm sd smax ff =
      Track.toTrip ops t nm nv st sn se sm sd smax ff ∧
    Track.removeNoise ops v u = { u with segments := u.segments.map (ops.removeNoiseOp v) } := by
  refine ⟨?_, ?_, rfl⟩
  · cases hn : (if nm.length ≠ 0 then some t.name else Track.generateName ops t ff) with
    | none => simp [Track.toTrip, hn]
    | some n => simp [Track.toTrip, hn]
  · rfl

/-! ### Concrete fixtures for the closed evaluations and witnesses -/

/-- Concrete per-segment operations used only by the closed fixtures. -/
def opsC : SegOps :=
  { removeNoiseOp := fun _ s => s
    smoothOp := fun _ _ s => s
    segmentOp := fun _ _ s => [s]
    simplifyOp := fun _ _ s => s
    computeMetricsOp := fun s => s
    strftime := fun f _ => f ++ "-t" }

/-- Concrete pairwise scorer (diff payload type `ℚ`) used by fixtures. -/
def simFnC : Seg → Seg → ℚ × ℚ :=
  fun a b => (((a.start + b.start : ℤ) : ℚ), ((a.start - b.start : ℤ) : ℚ))

/-- Concrete per-segment merge used by fixtures. -/
def mfC : Seg → Seg → Seg := fun a b => { a with start := a.start + b.start }

def segA : Seg := ⟨0, 0, 0, 1, 1, [10]⟩

def segB : Seg := ⟨5, 10, 10, 11, 11, [20]⟩

def qNear : Seg := ⟨1, 0, 0, 2, 2, [11]⟩

def qFar : Seg := ⟨2, 100, 100, 101, 101, [12]⟩

def selfT : Track := Track.init "self" [segA, segB]

def otherT : Track := Track.init "other" [qNear, qFar]

def trackOne : Track := Track.init "t" [segA]

def mergedT : Track := { selfT with segments := selfT.segments.set 0 (mfC segA qNear) }

/-! ### C4 — toTrip discards a non-empty caller-supplied name (code bug) -/

/-- C4 (code-bug evaluation): `toTrip` called with the non-empty name
`"given"` on a track named `"orig"` produces a track named `"orig"`, not
`"given"`: line 185 of track.py executes `name = self.name`, discarding
the supplied argument, although the docstring and the spec say the
caller-supplied name is used when non-empty. -/
theorem toTrip_name_bug :
    (Track.toTrip opsC (Track.init "orig" [segA]) "given" 2 "inverse" 0 0 0 0 5
        "fmt").map Track.name = some "orig" ∧ "orig" ≠ "given" := by
  constructor
  · rfl
  · decide

/-! ### Counterexamples and witnesses -/

/-- C3 counterexample: comparing against a query track with zero
segments, the overall score is the undefined-mean marker (`np.mean([])`
is `NaN`), not the value `0` claimed. -/
theorem similarity_empty_query_counterexample :
    (Track.similarity simFnC selfT (Track.init "" [])).1 = none ∧
    (Track.similarity simFnC selfT (Track.init "" [])).1 ≠ some 0 := by
  constructor
  · rfl
  · decide

/-- Witness for `similarity_empty_query` at a concrete empty query track. -/
theorem similarity_empty_query_witness :
    (Track.init "" []).segments = [] ∧
    Track.similarity simFnC selfT (Track.init "" []) = (none, []) :=
  ⟨rfl, similarity_empty_query simFnC selfT (Track.init "" []) rfl⟩

/-- C9 counterexample: on a track with one segment, `segmentAt (-1)`
succeeds (Python negative indexing returns the last segment) although
`-1` is not a valid index in the claim's sense, so the claimed
out-of-range failure does not happen. -/
theorem segmentAt_neg_counterexample :
    Track.segmentAt trackOne (-1) = some segA ∧
    ¬ (0 ≤ (-1 : ℤ) ∧ (-1 : ℤ) < (trackOne.segments.length : ℤ)) := by
  constructor
  · decide
  · decide

/-- Witness for `track_segmentAt_spec` at a concrete in-range index. -/
theorem track_segmentAt_spec_witness :
    (0 : ℤ) ≤ 0 ∧ Track.segmentAt trackOne 0 = trackOne.segments.get? (0 : ℤ).toNat :=
  ⟨by decide, (track_segmentAt_spec trackOne 0).1 (by decide)⟩

/-- Witness for `similarity_shape` at a concrete query segment with an
empty candidate set. -/
theorem similarity_shape_witness :
    otherT.segments.get? 1 = some qFar ∧
    idxIntersection (rtreeEntries 0 selfT.segments) qFar = [] ∧
    ((similarityScores simFnC selfT otherT).get? 1 = some 0 ∧
      (Track.similarity simFnC selfT otherT).2.get? 1 = some Corr.empty) :=
  ⟨by decide, by decide,
    (similarity_shape simFnC selfT otherT).2.2 1 qFar (by decide) (by decide)⟩

/-- Witness for `similarity_best_match` at a concrete query segment with
a non-empty candidate set. -/
theorem similarity_best_match_witness :
    otherT.segments.get? 0 = some qNear ∧
    idxIntersection (rtreeEntries 0 selfT.segments) qNear ≠ [] ∧
    (∃ (k : ℕ) (e : ℕ × Seg),
      (idxIntersection (rtreeEntries 0 selfT.segments) qNear).get? k = some e ∧
      (Track.similarity simFnC selfT otherT).2.get? 0 =
        some (Corr.triple e.1 0 (simFnC qNear e.2).2) ∧
      (similarityScores simFnC selfT otherT).get? 0 =
        some (listMax ((idxIntersection (rtreeEntries 0 selfT.segments) qNear).map
          (fun r => (simFnC qNear r.2).1))) ∧
      ((idxIntersection (rtreeEntries 0 selfT.segments) qNear).map
          (fun r => (simFnC qNear r.2).1)).get? k =
        some (listMax ((idxIntersection (rtreeEntries 0 selfT.segments) qNear).map
          (fun r => (simFnC qNear r.2).1))) ∧
      ∀ j < k,
        ((idxIntersection (rtreeEntries 0 selfT.segments) qNear).map
            (fun r => (simFnC qNear r.2).1)).getD j 0 <
          listMax ((idxIntersection (rtreeEntries 0 selfT.segments) qNear).map
            (fun r => (simFnC qNear r.2).1))) :=
  ⟨by decide, by decide,
    similarity_best_match simFnC selfT otherT 0 qNear (by decide) (by decide)⟩

/-- Witness for `merge_and_fit_frame` at a concrete one-triple
correspondence list. -/
theorem merge_and_fit_frame_witness :
    Track.merge_and_fit mfC selfT otherT [(0, 0, (42 : ℚ))] 0 = some mergedT ∧
    (mergedT.name = selfT.name ∧ mergedT.preprocessed = selfT.preprocessed ∧
      mergedT.segments.length = selfT.segments.length ∧
      (∀ i : ℕ, (∀ e ∈ [((0 : ℕ), (0 : ℕ), (42 : ℚ))], e.1 ≠ i) →
        mergedT.segments.get? i = selfT.segments.get? i) ∧
      ∀ other2 : Track,
        (∀ e ∈ [((0 : ℕ), (0 : ℕ), (42 : ℚ))],
          other2.segments.get? e.2.1 = otherT.segments.get? e.2.1) →
        Track.merge_and_fit mfC selfT other2 [(0, 0, (42 : ℚ))] 0 = some mergedT) :=
  ⟨by decide,
    merge_and_fit_frame mfC [(0, 0, (42 : ℚ))] selfT otherT mergedT 0 (by decide)⟩

/-- Witness for `merge_and_fit_index_pairs` at two concrete
correspondence lists with equal index pairs but different payloads and
thresholds. -/
theorem merge_and_fit_index_pairs_witness :
    ([((0 : ℕ), (0 : ℕ), (1 : ℚ))].map (fun e => (e.1, e.2.1)) =
      [((0 : ℕ), (0 : ℕ), (7 : ℤ))].map (fun e => (e.1, e.2.1))) ∧
    Track.merge_and_fit mfC selfT otherT [(0, 0, (1 : ℚ))] 5 =
      Track.merge_and_fit mfC selfT otherT [(0, 0, (7 : ℤ))] 7 :=
  ⟨by decide,
    merge_and_fit_index_pairs mfC [(0, 0, (1 : ℚ))] [(0, 0, (7 : ℤ))] selfT otherT 5 7
      (by decide)⟩
